import Mathlib

/-!
# Android-VIO native bridge: `ImuProcessor` and its JNI entry points

A shallow embedding of `app/src/main/cpp/ImuProcessor.{h,cpp}` and
`app/src/main/cpp/native-lib.cpp`.

Conventions of the embedding.

* C++ `float` values are only ever copied by this code, never computed with, so the
  definitions are generic in the type `F` that stands for `float`.
* `long` / `jlong` timestamps are `Int` (they are only copied as well).
* A pointer or JNI handle is an `Option`; `none` is `nullptr`.  A `jobject` is identified
  with the Java object it refers to (the identity that `IsSameObject` observes), so the
  global reference made from an object is that object.
* Every function returns, besides the new state, the list of thread operations and JNI
  calls it performed (`Effect`).  The answers of the Java runtime are arguments.
* `queueMutex` and `dataCondition` carry no data.  One pass through the body of the worker
  loop is one atomic step; `join` in `stopProcessing` is the worker leaving its loop.
* Calls of the Android log (`LOGD`, `LOGE`) are left out.
-/

namespace AndroidVIO

/-! ## JNI types and constants (`jni.h`) -/

abbrev JavaVM := Nat
abbrev jobject := Nat
abbrev jclass := Nat
abbrev jmethodID := Nat
abbrev jint := Int

/-- Status code `JNI_OK` of `jni.h`. -/
def JNI_OK : jint := 0
/-- Status code `JNI_ERR` of `jni.h`. -/
def JNI_ERR : jint := -1
/-- Status code `JNI_EDETACHED` of `jni.h`. -/
def JNI_EDETACHED : jint := -2
/-- Status code `JNI_EVERSION` of `jni.h`. -/
def JNI_EVERSION : jint := -3
/-- Status code `JNI_ENOMEM` of `jni.h`. -/
def JNI_ENOMEM : jint := -4

/-! ## Data model (`ImuProcessor.h`) -/

/-- The struct `ImuData`. -/
structure ImuData (F : Type) where
  timestamp : Int
  accX : F
  accY : F
  accZ : F
  gyroX : F
  gyroY : F
  gyroZ : F
deriving DecidableEq

/-- The struct `ProcessedImuData`. -/
structure ProcessedImuData (F : Type) where
  timestamp : Int
  processedX : F
  processedY : F
  processedZ : F
deriving DecidableEq

/-- The data members of class `ImuProcessor`.  `processingThread` is the value of
`processingThread.joinable()`. -/
structure ImuProcessor (F : Type) where
  inputQueue : List (ImuData F)
  processingThread : Bool
  running : Bool
  javaVm : Option JavaVM
  javaCallbackObj : Option jobject
  onProcessedImuDataMethodId : Option jmethodID
deriving DecidableEq

/-- Thread operations and JNI calls performed by the code, in program order. -/
inductive Effect (F : Type) where
  | spawnThread
  | notifyAll
  | joinThread
  | GetJavaVM
  | DeleteGlobalRef (obj : jobject)
  | NewGlobalRef (obj : Option jobject)
  | GetObjectClass (obj : jobject)
  | GetMethodID (cls : jclass) (name : String) (sig : String)
  | DeleteLocalRef (cls : jclass)
  | AttachCurrentThread
  | CallVoidMethod (obj : jobject) (methodID : jmethodID) (timestamp : Int) (x : F) (y : F) (z : F)
  | ExceptionCheck
  | ExceptionDescribe
  | ExceptionClear
  | DetachCurrentThread
deriving DecidableEq

/-- The answers of the Java runtime to the calls made through a `JNIEnv *` during one
native call.  `GetJavaVM` maps the old content of the out-parameter to its new content;
`NewGlobalRef` says whether a global reference to the object can be created. -/
structure JNIEnv where
  GetJavaVM : Option JavaVM → Option JavaVM
  NewGlobalRef : jobject → Bool
  GetObjectClass : jobject → Option jclass
  GetMethodID : jclass → String → String → Option jmethodID

/-! ## `ImuProcessor.cpp` -/

/-- The constructor `ImuProcessor::ImuProcessor()`.  It initialises `running` and
`javaCallbackObj` only; `javaVm` and `onProcessedImuDataMethodId` start with indeterminate
values, which are the two arguments. -/
def ImuProcessor.ctor {F : Type} (javaVm0 : Option JavaVM) (methodId0 : Option jmethodID) :
    ImuProcessor F :=
  { inputQueue := []
    processingThread := false
    running := false
    javaVm := javaVm0
    javaCallbackObj := none
    onProcessedImuDataMethodId := methodId0 }

/-- The method `ImuProcessor::startProcessing`.  Assigning a new `std::thread` to a
`processingThread` that is still joinable calls `std::terminate`; that is `none`. -/
def startProcessing {F : Type} (p : ImuProcessor F) :
    Option (ImuProcessor F × List (Effect F)) :=
  if !p.running then
    let p1 := { p with running := true }
    if p1.processingThread then none
    else some ({ p1 with processingThread := true }, [Effect.spawnThread])
  else some (p, [])

/-- The method `ImuProcessor::stopProcessing`.  The joined worker observes `running == false`
and leaves its loop without touching the queue (see `wake`). -/
def stopProcessing {F : Type} (p : ImuProcessor F) : ImuProcessor F × List (Effect F) :=
  if p.running then
    let p1 := { p with running := false }
    if p1.processingThread then
      ({ p1 with processingThread := false }, [Effect.notifyAll, Effect.joinThread])
    else (p1, [Effect.notifyAll])
  else (p, [])

/-- The method `ImuProcessor::receiveImuData`. -/
def receiveImuData {F : Type} (timestamp : Int) (accX accY accZ gyroX gyroY gyroZ : F)
    (p : ImuProcessor F) : ImuProcessor F :=
  { p with inputQueue := p.inputQueue ++ [⟨timestamp, accX, accY, accZ, gyroX, gyroY, gyroZ⟩] }

/-- The call `env->NewGlobalRef(obj)`: `nullptr` for a null argument or when the runtime
cannot create the reference, otherwise a reference to the same object. -/
def JNIEnv.newGlobalRef (env : JNIEnv) (obj : Option jobject) : Option jobject :=
  match obj with
  | none => none
  | some o => if env.NewGlobalRef o then some o else none

/-- The method `ImuProcessor::findJavaCallbackMethod`. -/
def findJavaCallbackMethod {F : Type} (env : JNIEnv) (p : ImuProcessor F) :
    ImuProcessor F × List (Effect F) :=
  match p.javaCallbackObj with
  | none => (p, [])
  | some obj =>
    match env.GetObjectClass obj with
    | none => (p, [Effect.GetObjectClass obj])
    | some callbackClass =>
      ({ p with onProcessedImuDataMethodId :=
            env.GetMethodID callbackClass "onProcessedImuData" "(JFFF)V" },
        [Effect.GetObjectClass obj,
         Effect.GetMethodID callbackClass "onProcessedImuData" "(JFFF)V",
         Effect.DeleteLocalRef callbackClass])

/-- The method `ImuProcessor::setOutputCallback`. -/
def setOutputCallback {F : Type} (env : JNIEnv) (callback_obj : Option jobject)
    (p : ImuProcessor F) : ImuProcessor F × List (Effect F) :=
  let p1 := { p with javaVm := env.GetJavaVM p.javaVm }
  let del : List (Effect F) :=
    match p1.javaCallbackObj with
    | some old => [Effect.DeleteGlobalRef old]
    | none => []
  let p2 := { p1 with javaCallbackObj := env.newGlobalRef callback_obj }
  let pre : List (Effect F) := [Effect.GetJavaVM] ++ del ++ [Effect.NewGlobalRef callback_obj]
  match p2.javaCallbackObj with
  | none => (p2, pre)
  | some _ =>
    let r := findJavaCallbackMethod env p2
    (r.1, pre ++ r.2)

/-- The wait predicate of `processImuData`: `!inputQueue.empty() || !running`. -/
def waitPredicate {F : Type} (p : ImuProcessor F) : Bool :=
  !p.inputQueue.isEmpty || !p.running

/-- What the worker does at `dataCondition.wait` and right after it. -/
inductive Wake (F : Type) where
  | waiting
  | stop
  | dequeued (currentImuData : ImuData F) (p : ImuProcessor F)
deriving DecidableEq

/-- The locked block of `processImuData`: wait for the predicate, leave the loop when
`running` is false, otherwise take `inputQueue.front()` and `pop()`. -/
def wake {F : Type} (p : ImuProcessor F) : Wake F :=
  if !waitPredicate p then Wake.waiting
  else if !p.running then Wake.stop
  else
    match p.inputQueue with
    | [] => Wake.waiting
    | currentImuData :: rest => Wake.dequeued currentImuData { p with inputQueue := rest }

/-- The `ProcessedImuData processedData` that `processImuData` fills in from
`currentImuData`. -/
def processedData {F : Type} (currentImuData : ImuData F) : ProcessedImuData F :=
  { timestamp := currentImuData.timestamp
    processedX := currentImuData.accX
    processedY := currentImuData.accY
    processedZ := currentImuData.accZ }

/-- The result of one pass through the `while (running)` loop of `processImuData`:
the loop is left, the thread stays in `wait`, or the pass ran to the end of the body
(also through `continue`) with the given state, effects and pending-exception flag of
the worker thread. -/
inductive LoopStep (F : Type) where
  | exited
  | waiting
  | continued (p : ImuProcessor F) (effects : List (Effect F)) (exceptionPending : Bool)
deriving DecidableEq

/-- The callback part of the loop body, entered when `javaVm`, `javaCallbackObj` and
`onProcessedImuDataMethodId` are all non-null.  `attachStatus` is what
`AttachCurrentThread` returns and `sinkThrows` tells whether the Java method leaves an
exception pending.  For a status that is neither `JNI_OK` nor `JNI_ERR` the call is made
through an `env` that was never set. -/
def callback {F : Type} (attachStatus : jint) (sinkThrows : Bool) (obj : jobject)
    (methodID : jmethodID) (d : ProcessedImuData F) : List (Effect F) × Bool :=
  if attachStatus = JNI_ERR then ([Effect.AttachCurrentThread], false)
  else
    let call : List (Effect F) :=
      [Effect.AttachCurrentThread,
       Effect.CallVoidMethod obj methodID d.timestamp d.processedX d.processedY d.processedZ,
       Effect.ExceptionCheck]
    let pending := sinkThrows
    if pending then
      (call ++ [Effect.ExceptionDescribe, Effect.ExceptionClear, Effect.DetachCurrentThread],
        false)
    else (call ++ [Effect.DetachCurrentThread], pending)

/-- One pass through the loop of `ImuProcessor::processImuData`. -/
def processImuData {F : Type} (attachStatus : jint) (sinkThrows : Bool) (p : ImuProcessor F) :
    LoopStep F :=
  if !p.running then LoopStep.exited
  else
    match wake p with
    | Wake.waiting => LoopStep.waiting
    | Wake.stop => LoopStep.exited
    | Wake.dequeued currentImuData p1 =>
      match p1.javaVm, p1.javaCallbackObj, p1.onProcessedImuDataMethodId with
      | some _, some obj, some methodID =>
        let r := callback attachStatus sinkThrows obj methodID (processedData currentImuData)
        LoopStep.continued p1 r.1 r.2
      | _, _, _ => LoopStep.continued p1 [] false

/-! ## `native-lib.cpp` -/

/-- The entry point `nativeInitProcessor`, on the global `imuProcessor`. -/
def Java_com_example_android_1vio_MainActivity_nativeInitProcessor {F : Type}
    (javaVm0 : Option JavaVM) (methodId0 : Option jmethodID)
    (imuProcessor : Option (ImuProcessor F)) : Option (ImuProcessor F) :=
  match imuProcessor with
  | none => some (ImuProcessor.ctor javaVm0 methodId0)
  | some p => some p

/-- The entry point `nativeStartProcessing`, on the global `imuProcessor`. -/
def Java_com_example_android_1vio_MainActivity_nativeStartProcessing {F : Type}
    (imuProcessor : Option (ImuProcessor F)) :
    Option (Option (ImuProcessor F) × List (Effect F)) :=
  match imuProcessor with
  | some p => (startProcessing p).map fun r => (some r.1, r.2)
  | none => some (none, [])

/-- The entry point `nativeStopProcessing`, on the global `imuProcessor`. -/
def Java_com_example_android_1vio_MainActivity_nativeStopProcessing {F : Type}
    (imuProcessor : Option (ImuProcessor F)) : Option (ImuProcessor F) × List (Effect F) :=
  match imuProcessor with
  | some p => (some (stopProcessing p).1, (stopProcessing p).2)
  | none => (none, [])

/-- The entry point `nativeReceiveImuData`, on the global `imuProcessor`. -/
def Java_com_example_android_1vio_MainActivity_nativeReceiveImuData {F : Type}
    (timestamp : Int) (accX accY accZ gyroX gyroY gyroZ : F)
    (imuProcessor : Option (ImuProcessor F)) : Option (ImuProcessor F) × List (Effect F) :=
  match imuProcessor with
  | some p => (some (receiveImuData timestamp accX accY accZ gyroX gyroY gyroZ p), [])
  | none => (none, [])

/-- The entry point `nativeSetOutputCallback`, on the global `imuProcessor`. -/
def Java_com_example_android_1vio_MainActivity_nativeSetOutputCallback {F : Type}
    (env : JNIEnv) (callback_obj : Option jobject)
    (imuProcessor : Option (ImuProcessor F)) : Option (ImuProcessor F) × List (Effect F) :=
  match imuProcessor with
  | some p => (some (setOutputCallback env callback_obj p).1, (setOutputCallback env callback_obj p).2)
  | none => (none, [])

/-! ## Traces of calls and worker passes -/

/-- One step of a trace: a call of a public method, or one pass of the worker loop with
the runtime's answers for that pass. -/
inductive Op (F : Type) where
  | receiveImuData (d : ImuData F)
  | startProcessing
  | stopProcessing
  | worker (attachStatus : jint) (sinkThrows : Bool)
deriving DecidableEq

/-- Run one step.  A worker pass happens only while the worker thread exists; a pass that
leaves the loop or stays in `wait` changes nothing. -/
def exec {F : Type} (op : Op F) (p : ImuProcessor F) :
    Option (ImuProcessor F × List (Effect F)) :=
  match op with
  | Op.receiveImuData d =>
    some (receiveImuData d.timestamp d.accX d.accY d.accZ d.gyroX d.gyroY d.gyroZ p, [])
  | Op.startProcessing => startProcessing p
  | Op.stopProcessing => some (stopProcessing p)
  | Op.worker attachStatus sinkThrows =>
    if p.processingThread then
      match processImuData attachStatus sinkThrows p with
      | LoopStep.continued p1 effects _ => some (p1, effects)
      | _ => some (p, [])
    else some (p, [])

/-- Run a trace, collecting the effects. -/
def run {F : Type} : List (Op F) → ImuProcessor F → Option (ImuProcessor F × List (Effect F))
  | [], p => some (p, [])
  | op :: ops, p =>
    match exec op p with
    | none => none
    | some r1 =>
      match run ops r1.1 with
      | none => none
      | some r2 => some (r2.1, r1.2 ++ r2.2)

/-- The samples submitted by a trace, in order. -/
def submitted {F : Type} : List (Op F) → List (ImuData F)
  | [] => []
  | Op.receiveImuData d :: ops => d :: submitted ops
  | _ :: ops => submitted ops

/-- The processed samples handed to the sink (`CallVoidMethod`) by a list of effects,
in order. -/
def delivered {F : Type} : List (Effect F) → List (ProcessedImuData F)
  | [] => []
  | Effect.CallVoidMethod _ _ timestamp x y z :: es => ⟨timestamp, x, y, z⟩ :: delivered es
  | _ :: es => delivered es

/-- The receivers of the `CallVoidMethod` calls in a list of effects, in order. -/
def receivers {F : Type} : List (Effect F) → List jobject
  | [] => []
  | Effect.CallVoidMethod obj _ _ _ _ _ :: es => obj :: receivers es
  | _ :: es => receivers es

/-- The class invariant of `ImuProcessor` between calls: the worker thread exists exactly
when `running` is set. -/
def WellFormed {F : Type} (p : ImuProcessor F) : Prop :=
  p.processingThread = p.running

/-- A sink is registered and resolved: the three handles tested by `processImuData` are
non-null. -/
def SinkReady {F : Type} (p : ImuProcessor F) : Prop :=
  p.javaVm.isSome = true ∧ p.javaCallbackObj.isSome = true ∧
    p.onProcessedImuDataMethodId.isSome = true

/-- Every worker pass of the trace attaches successfully (`JNI_OK`). -/
def AttachOk {F : Type} : List (Op F) → Prop
  | [] => True
  | Op.worker attachStatus _ :: ops => attachStatus = JNI_OK ∧ AttachOk ops
  | _ :: ops => AttachOk ops

/-- The trace contains no `startProcessing`. -/
def NoStart {F : Type} : List (Op F) → Prop
  | [] => True
  | Op.startProcessing :: _ => False
  | _ :: ops => NoStart ops

/-- The trace consists of `receiveImuData` calls and worker passes only. -/
def ProducerConsumer {F : Type} : List (Op F) → Prop
  | [] => True
  | Op.receiveImuData _ :: ops => ProducerConsumer ops
  | Op.worker _ _ :: ops => ProducerConsumer ops
  | _ :: _ => False

/-! ## Concrete states used in the examples below -/

/-- A sample with timestamp 1000, accelerometer (1, 2, 3) and gyroscope (0, 0, 0). -/
def sampleA : ImuData Nat := ⟨1000, 1, 2, 3, 0, 0, 0⟩

/-- A second sample. -/
def sampleB : ImuData Nat := ⟨2000, 4, 5, 6, 7, 8, 9⟩

/-- A freshly constructed processor on which sink object 5 was registered and its method
resolved to method id 7 (Java VM 1); the worker is not started. -/
def stoppedProc : ImuProcessor Nat :=
  { inputQueue := []
    processingThread := false
    running := false
    javaVm := some 1
    javaCallbackObj := some 5
    onProcessedImuDataMethodId := some 7 }

/-- The processor `stoppedProc` after `startProcessing`. -/
def runningProc : ImuProcessor Nat :=
  { stoppedProc with processingThread := true, running := true }

/-- The processor in the middle of `stopProcessing`: `running` was cleared, the worker
thread is not yet joined and one sample is queued. -/
def stoppingProc : ImuProcessor Nat :=
  { stoppedProc with inputQueue := [sampleA], processingThread := true }

/-- The running processor with one queued sample. -/
def oneQueuedProc : ImuProcessor Nat :=
  { runningProc with inputQueue := [sampleA] }

/-- The running processor with two queued samples. -/
def twoQueuedProc : ImuProcessor Nat :=
  { runningProc with inputQueue := [sampleA, sampleB] }

/-- A runtime in which every step of a registration succeeds (class 3, method id 8). -/
def envOk : JNIEnv :=
  { GetJavaVM := fun _ => some 1
    NewGlobalRef := fun _ => true
    GetObjectClass := fun _ => some 3
    GetMethodID := fun _ _ _ => some 8 }

/-- A runtime in which `GetObjectClass` returns null. -/
def envClassFails : JNIEnv :=
  { GetJavaVM := fun _ => some 1
    NewGlobalRef := fun _ => true
    GetObjectClass := fun _ => none
    GetMethodID := fun _ _ _ => some 8 }

/-! ## Lemmas on steps and traces -/

/-- The constructor establishes the class invariant, with an empty queue and no sink. -/
theorem ctor_wellFormed {F : Type} (javaVm0 : Option JavaVM) (methodId0 : Option jmethodID) :
    WellFormed (ImuProcessor.ctor javaVm0 methodId0 : ImuProcessor F) ∧
    (ImuProcessor.ctor javaVm0 methodId0 : ImuProcessor F).inputQueue = [] ∧
    (ImuProcessor.ctor javaVm0 methodId0 : ImuProcessor F).javaCallbackObj = none :=
  ⟨rfl, rfl, rfl⟩

/-- A registration touches neither the queue nor `running` nor the worker thread, so it
keeps the class invariant. -/
theorem setOutputCallback_frame {F : Type} (env : JNIEnv) (obj : Option jobject)
    (p : ImuProcessor F) :
    (setOutputCallback env obj p).1.inputQueue = p.inputQueue ∧
    (setOutputCallback env obj p).1.running = p.running ∧
    (setOutputCallback env obj p).1.processingThread = p.processingThread := by
  obtain ⟨q, th, r, vm, cb, m⟩ := p
  cases obj with
  | none => simp [setOutputCallback, JNIEnv.newGlobalRef]
  | some o =>
    cases hB : env.NewGlobalRef o <;> cases hC : env.GetObjectClass o <;>
      simp [setOutputCallback, JNIEnv.newGlobalRef, findJavaCallbackMethod, hB, hC]

theorem run_append {F : Type} (ops1 ops2 : List (Op F)) (p : ImuProcessor F) :
    run (ops1 ++ ops2) p =
      match run ops1 p with
      | none => none
      | some r1 =>
        match run ops2 r1.1 with
        | none => none
        | some r2 => some (r2.1, r1.2 ++ r2.2) := by
  induction ops1 generalizing p with
  | nil => cases h : run ops2 p <;> simp [run, h]
  | cons op ops ih =>
    rw [List.cons_append, run, run]
    cases h1 : exec op p with
    | none => rfl
    | some r1 =>
      dsimp only
      rw [ih]
      cases h2 : run ops r1.1 with
      | none => rfl
      | some r2 =>
        dsimp only
        cases h3 : run ops2 r2.1 with
        | none => rfl
        | some r3 => simp [List.append_assoc]

theorem delivered_append {F : Type} (e1 e2 : List (Effect F)) :
    delivered (e1 ++ e2) = delivered e1 ++ delivered e2 := by
  induction e1 with
  | nil => rfl
  | cons e es ih => cases e <;> simp [delivered, ih]

theorem receivers_append {F : Type} (e1 e2 : List (Effect F)) :
    receivers (e1 ++ e2) = receivers e1 ++ receivers e2 := by
  induction e1 with
  | nil => rfl
  | cons e es ih => cases e <;> simp [receivers, ih]

theorem submitted_append {F : Type} (ops1 ops2 : List (Op F)) :
    submitted (ops1 ++ ops2) = submitted ops1 ++ submitted ops2 := by
  induction ops1 with
  | nil => rfl
  | cons op ops ih => cases op <;> simp [submitted, ih]

/-- What the callback part hands to the sink: nothing on `JNI_ERR`, else the one sample. -/
theorem callback_delivered {F : Type} (a : jint) (t : Bool) (obj : jobject) (m : jmethodID)
    (d : ProcessedImuData F) :
    delivered (callback a t obj m d).1 = (if a = JNI_ERR then [] else [d]) ∧
    receivers (callback a t obj m d).1 = (if a = JNI_ERR then [] else [obj]) ∧
    (callback a t obj m d).2 = false := by
  by_cases h : a = JNI_ERR <;> cases t <;> simp [callback, h, delivered, receivers]

/-- The three shapes of a worker pass inside a trace. -/
theorem exec_worker_cases {F : Type} (a : jint) (t : Bool) (p : ImuProcessor F) :
    (exec (Op.worker a t) p = some (p, []) ∧
      (p.processingThread = false ∨ p.running = false ∨ p.inputQueue = [])) ∨
    ∃ d rest, p.processingThread = true ∧ p.running = true ∧ p.inputQueue = d :: rest ∧
      ((∃ vm obj m, p.javaVm = some vm ∧ p.javaCallbackObj = some obj ∧
          p.onProcessedImuDataMethodId = some m ∧
          exec (Op.worker a t) p =
            some ({ p with inputQueue := rest }, (callback a t obj m (processedData d)).1)) ∨
        (¬ SinkReady p ∧ exec (Op.worker a t) p = some ({ p with inputQueue := rest }, []))) := by
  obtain ⟨q, th, r, vm, cb, m⟩ := p
  cases th <;> cases r <;> cases q <;> cases vm <;> cases cb <;> cases m <;>
    simp [exec, processImuData, wake, waitPredicate, SinkReady]
  exact ⟨_, _, ⟨rfl, rfl⟩, rfl, rfl⟩

/-- A step never changes the sink registration, and every sink call it makes goes to the
registered object. -/
theorem exec_sink {F : Type} (op : Op F) (p p1 : ImuProcessor F) (e : List (Effect F))
    (h : exec op p = some (p1, e)) :
    p1.javaVm = p.javaVm ∧ p1.javaCallbackObj = p.javaCallbackObj ∧
    p1.onProcessedImuDataMethodId = p.onProcessedImuDataMethodId ∧
    ∀ o ∈ receivers e, p.javaCallbackObj = some o := by
  cases op with
  | receiveImuData d =>
    simp only [exec, receiveImuData, Option.some.injEq, Prod.mk.injEq] at h
    obtain ⟨rfl, rfl⟩ := h
    simp [receivers]
  | startProcessing =>
    obtain ⟨q, th, r, vm, cb, m⟩ := p
    cases r <;> cases th <;> simp [exec, startProcessing] at h <;>
      obtain ⟨rfl, rfl⟩ := h <;> simp [receivers]
  | stopProcessing =>
    obtain ⟨q, th, r, vm, cb, m⟩ := p
    cases r <;> cases th <;> simp [exec, stopProcessing] at h <;>
      obtain ⟨rfl, rfl⟩ := h <;> simp [receivers]
  | worker a t =>
    rcases exec_worker_cases a t p with ⟨h1, _⟩ | ⟨d, rest, _, _, _, h1⟩
    · rw [h1] at h
      simp only [Option.some.injEq, Prod.mk.injEq] at h
      obtain ⟨rfl, rfl⟩ := h
      simp [receivers]
    · rcases h1 with ⟨vm, obj, m, _, hcb, _, h1⟩ | ⟨_, h1⟩
      · rw [h1] at h
        simp only [Option.some.injEq, Prod.mk.injEq] at h
        obtain ⟨rfl, rfl⟩ := h
        refine ⟨rfl, rfl, rfl, ?_⟩
        intro o ho
        rw [(callback_delivered a t obj m (processedData d)).2.1] at ho
        split at ho <;> simp at ho
        rw [hcb, ho]
      · rw [h1] at h
        simp only [Option.some.injEq, Prod.mk.injEq] at h
        obtain ⟨rfl, rfl⟩ := h
        simp [receivers]

/-- The class invariant is kept by every step, and from a state that satisfies it every
step returns. -/
theorem exec_wellFormed {F : Type} (op : Op F) (p : ImuProcessor F) (h : WellFormed p) :
    ∃ p1 e, exec op p = some (p1, e) ∧ WellFormed p1 := by
  cases op with
  | receiveImuData d => exact ⟨_, _, rfl, h⟩
  | startProcessing =>
    obtain ⟨q, th, r, vm, cb, m⟩ := p
    simp only [WellFormed] at h
    subst h
    cases th <;> simp [exec, startProcessing, WellFormed]
  | stopProcessing =>
    obtain ⟨q, th, r, vm, cb, m⟩ := p
    simp only [WellFormed] at h
    subst h
    cases th <;> simp [exec, stopProcessing, WellFormed]
  | worker a t =>
    rcases exec_worker_cases a t p with ⟨h1, _⟩ | ⟨d, rest, _, _, _, h1⟩
    · exact ⟨_, _, h1, h⟩
    · rcases h1 with ⟨vm, obj, m, _, _, _, h1⟩ | ⟨_, h1⟩ <;> exact ⟨_, _, h1, h⟩

/-- One step keeps the queue discipline: the samples it hands to the sink, followed by
the queue afterwards, are the queue before followed by what the step submits. -/
theorem exec_fifo {F : Type} (op : Op F) (p p1 : ImuProcessor F) (e : List (Effect F))
    (hs : SinkReady p) (ha : AttachOk [op]) (h : exec op p = some (p1, e)) :
    ∃ done, delivered e = done.map processedData ∧
      done ++ p1.inputQueue = p.inputQueue ++ submitted [op] := by
  cases op with
  | receiveImuData d =>
    simp only [exec, receiveImuData, Option.some.injEq, Prod.mk.injEq] at h
    obtain ⟨rfl, rfl⟩ := h
    exact ⟨[], rfl, rfl⟩
  | startProcessing =>
    obtain ⟨q, th, r, vm, cb, m⟩ := p
    cases r <;> cases th <;> simp [exec, startProcessing] at h <;>
      obtain ⟨rfl, rfl⟩ := h <;> exact ⟨[], rfl, by simp [submitted]⟩
  | stopProcessing =>
    obtain ⟨q, th, r, vm, cb, m⟩ := p
    cases r <;> cases th <;> simp [exec, stopProcessing] at h <;>
      obtain ⟨rfl, rfl⟩ := h <;> exact ⟨[], rfl, by simp [submitted]⟩
  | worker a t =>
    have ha1 : a = JNI_OK := ha.1
    rcases exec_worker_cases a t p with ⟨h1, _⟩ | ⟨d, rest, _, _, hq, h1⟩
    · rw [h1] at h
      simp only [Option.some.injEq, Prod.mk.injEq] at h
      obtain ⟨rfl, rfl⟩ := h
      exact ⟨[], rfl, by simp [submitted]⟩
    · rcases h1 with ⟨vm, obj, m, _, _, _, h1⟩ | ⟨hn, _⟩
      · rw [h1] at h
        simp only [Option.some.injEq, Prod.mk.injEq] at h
        obtain ⟨rfl, rfl⟩ := h
        refine ⟨[d], ?_, by simp [hq, submitted]⟩
        rw [(callback_delivered a t obj m (processedData d)).1]
        simp [ha1, JNI_OK, JNI_ERR]
      · exact absurd hs hn

/-- While the processor is stopped and is not started, a step hands nothing to the sink
and the queue only grows by what is submitted. -/
theorem exec_stopped {F : Type} (op : Op F) (p : ImuProcessor F)
    (hr : p.running = false) (ht : p.processingThread = false) (hn : NoStart [op]) :
    ∃ p1 e, exec op p = some (p1, e) ∧ p1.running = false ∧ p1.processingThread = false ∧
      delivered e = [] ∧ p1.inputQueue = p.inputQueue ++ submitted [op] := by
  obtain ⟨q, th, r, vm, cb, m⟩ := p
  simp only at hr ht
  subst hr ht
  cases op with
  | receiveImuData d => exact ⟨_, _, rfl, rfl, rfl, rfl, rfl⟩
  | startProcessing => exact absurd hn (by simp [NoStart])
  | stopProcessing => exact ⟨_, _, rfl, rfl, rfl, rfl, by simp [submitted]⟩
  | worker a t => exact ⟨_, _, rfl, rfl, rfl, rfl, by simp [submitted]⟩

theorem attachOk_cons {F : Type} (op : Op F) (ops : List (Op F)) :
    AttachOk (op :: ops) ↔ AttachOk [op] ∧ AttachOk ops := by
  cases op <;> simp [AttachOk]

theorem noStart_cons {F : Type} (op : Op F) (ops : List (Op F)) :
    NoStart (op :: ops) ↔ NoStart [op] ∧ NoStart ops := by
  cases op <;> simp [NoStart]

theorem submitted_cons {F : Type} (op : Op F) (ops : List (Op F)) :
    submitted (op :: ops) = submitted [op] ++ submitted ops :=
  submitted_append [op] ops

/-- A trace never changes the sink registration, and every sink call in it goes to the
registered object. -/
theorem run_sink {F : Type} (ops : List (Op F)) (p p1 : ImuProcessor F)
    (e : List (Effect F)) (h : run ops p = some (p1, e)) :
    p1.javaVm = p.javaVm ∧ p1.javaCallbackObj = p.javaCallbackObj ∧
    p1.onProcessedImuDataMethodId = p.onProcessedImuDataMethodId ∧
    ∀ o ∈ receivers e, p.javaCallbackObj = some o := by
  induction ops generalizing p e with
  | nil =>
    simp only [run, Option.some.injEq, Prod.mk.injEq] at h
    obtain ⟨rfl, rfl⟩ := h
    simp [receivers]
  | cons op ops ih =>
    rw [run] at h
    cases h1 : exec op p with
    | none => simp [h1] at h
    | some r1 =>
      obtain ⟨pa, ea⟩ := r1
      rw [h1] at h
      dsimp only at h
      cases h2 : run ops pa with
      | none => simp [h2] at h
      | some r2 =>
        obtain ⟨pb, eb⟩ := r2
        rw [h2] at h
        simp only [Option.some.injEq, Prod.mk.injEq] at h
        obtain ⟨rfl, rfl⟩ := h
        obtain ⟨a1, a2, a3, a4⟩ := exec_sink op p pa ea h1
        obtain ⟨b1, b2, b3, b4⟩ := ih pa eb h2
        refine ⟨b1.trans a1, b2.trans a2, b3.trans a3, ?_⟩
        intro o ho
        rw [receivers_append, List.mem_append] at ho
        rcases ho with ho | ho
        · exact a4 o ho
        · rw [← a2]
          exact b4 o ho

/-- From a state that satisfies the class invariant every trace returns, in a state that
satisfies it. -/
theorem run_wellFormed {F : Type} (ops : List (Op F)) (p : ImuProcessor F)
    (h : WellFormed p) : ∃ p1 e, run ops p = some (p1, e) ∧ WellFormed p1 := by
  induction ops generalizing p with
  | nil => exact ⟨p, [], rfl, h⟩
  | cons op ops ih =>
    obtain ⟨pa, ea, h1, hwa⟩ := exec_wellFormed op p h
    obtain ⟨pb, eb, h2, hwb⟩ := ih pa hwa
    exact ⟨pb, ea ++ eb, by simp [run, h1, h2], hwb⟩

/-- The queue discipline along a trace whose worker passes all attach successfully. -/
theorem run_fifo {F : Type} (ops : List (Op F)) (p : ImuProcessor F)
    (hw : WellFormed p) (hs : SinkReady p) (ha : AttachOk ops) :
    ∃ p1 e done, run ops p = some (p1, e) ∧ delivered e = done.map processedData ∧
      done ++ p1.inputQueue = p.inputQueue ++ submitted ops := by
  induction ops generalizing p with
  | nil => exact ⟨p, [], [], rfl, rfl, by simp [submitted]⟩
  | cons op ops ih =>
    rw [attachOk_cons] at ha
    obtain ⟨pa, ea, h1, hwa⟩ := exec_wellFormed op p hw
    obtain ⟨a1, a2, a3, _⟩ := exec_sink op p pa ea h1
    have hsa : SinkReady pa := by
      unfold SinkReady at hs ⊢
      rw [a1, a2, a3]
      exact hs
    obtain ⟨d1, hd1, hq1⟩ := exec_fifo op p pa ea hs ha.1 h1
    obtain ⟨pb, eb, d2, h2, hd2, hq2⟩ := ih pa hwa hsa ha.2
    refine ⟨pb, ea ++ eb, d1 ++ d2, by simp [run, h1, h2], ?_, ?_⟩
    · rw [delivered_append, hd1, hd2, List.map_append]
    · rw [List.append_assoc, hq2, ← List.append_assoc, hq1, submitted_cons op ops,
        List.append_assoc]

/-- While the processor is stopped and is not started, a trace hands nothing to the sink
and the queue only grows by what is submitted. -/
theorem run_stopped {F : Type} (ops : List (Op F)) (p : ImuProcessor F)
    (hr : p.running = false) (ht : p.processingThread = false) (hn : NoStart ops) :
    ∃ p1 e, run ops p = some (p1, e) ∧ p1.running = false ∧ p1.processingThread = false ∧
      delivered e = [] ∧ p1.inputQueue = p.inputQueue ++ submitted ops := by
  induction ops generalizing p with
  | nil => exact ⟨p, [], rfl, hr, ht, rfl, by simp [submitted]⟩
  | cons op ops ih =>
    rw [noStart_cons] at hn
    obtain ⟨pa, ea, h1, hra, hta, hda, hqa⟩ := exec_stopped op p hr ht hn.1
    obtain ⟨pb, eb, h2, hrb, htb, hdb, hqb⟩ := ih pa hra hta hn.2
    refine ⟨pb, ea ++ eb, by simp [run, h1, h2], hrb, htb, ?_, ?_⟩
    · rw [delivered_append, hda, hdb]
      rfl
    · rw [hqb, hqa, submitted_cons op ops, List.append_assoc]

/-- One step, whatever the runtime answers: the step dequeues a list `done` of samples
from the head of the queue and hands to the sink a sublist `kept` of it, in order; with a
resolved sink and a successful attach nothing is skipped. -/
theorem exec_fifo_sub {F : Type} (op : Op F) (p p1 : ImuProcessor F) (e : List (Effect F))
    (h : exec op p = some (p1, e)) :
    ∃ done kept, List.Sublist kept done ∧ delivered e = kept.map processedData ∧
      done ++ p1.inputQueue = p.inputQueue ++ submitted [op] ∧
      (SinkReady p → AttachOk [op] → kept = done) := by
  cases op with
  | receiveImuData d =>
    simp only [exec, receiveImuData, Option.some.injEq, Prod.mk.injEq] at h
    obtain ⟨rfl, rfl⟩ := h
    exact ⟨[], [], List.Sublist.refl _, rfl, rfl, fun _ _ => rfl⟩
  | startProcessing =>
    obtain ⟨q, th, r, vm, cb, m⟩ := p
    cases r <;> cases th <;> simp [exec, startProcessing] at h <;>
      obtain ⟨rfl, rfl⟩ := h <;>
      exact ⟨[], [], List.Sublist.refl _, rfl, by simp [submitted], fun _ _ => rfl⟩
  | stopProcessing =>
    obtain ⟨q, th, r, vm, cb, m⟩ := p
    cases r <;> cases th <;> simp [exec, stopProcessing] at h <;>
      obtain ⟨rfl, rfl⟩ := h <;>
      exact ⟨[], [], List.Sublist.refl _, rfl, by simp [submitted], fun _ _ => rfl⟩
  | worker a t =>
    rcases exec_worker_cases a t p with ⟨h1, _⟩ | ⟨d, rest, _, _, hq, h1⟩
    · rw [h1] at h
      simp only [Option.some.injEq, Prod.mk.injEq] at h
      obtain ⟨rfl, rfl⟩ := h
      exact ⟨[], [], List.Sublist.refl _, rfl, by simp [submitted], fun _ _ => rfl⟩
    · rcases h1 with ⟨vm, obj, m, _, _, _, h1⟩ | ⟨hn, h1⟩
      · rw [h1] at h
        simp only [Option.some.injEq, Prod.mk.injEq] at h
        obtain ⟨rfl, rfl⟩ := h
        by_cases ha : a = JNI_ERR
        · refine ⟨[d], [], List.nil_sublist _, ?_, by simp [hq, submitted], ?_⟩
          · rw [(callback_delivered a t obj m (processedData d)).1]
            simp [ha]
          · intro _ hok
            have h0 : a = JNI_OK := hok.1
            rw [h0] at ha
            exact absurd ha (by decide)
        · refine ⟨[d], [d], List.Sublist.refl _, ?_, by simp [hq, submitted], fun _ _ => rfl⟩
          rw [(callback_delivered a t obj m (processedData d)).1]
          simp [ha]
      · rw [h1] at h
        simp only [Option.some.injEq, Prod.mk.injEq] at h
        obtain ⟨rfl, rfl⟩ := h
        exact ⟨[d], [], List.nil_sublist _, rfl, by simp [hq, submitted],
          fun hs _ => absurd hs hn⟩

/-- The queue discipline along any trace, whatever the runtime answers: the samples handed
to the sink are a sublist, in order, of the samples dequeued, and with a resolved sink
and successful attaches they are all of them. -/
theorem run_fifo_sub {F : Type} (ops : List (Op F)) (p : ImuProcessor F)
    (hw : WellFormed p) :
    ∃ p1 e done kept, run ops p = some (p1, e) ∧ List.Sublist kept done ∧
      delivered e = kept.map processedData ∧
      done ++ p1.inputQueue = p.inputQueue ++ submitted ops ∧
      (SinkReady p → AttachOk ops → kept = done) := by
  induction ops generalizing p with
  | nil => exact ⟨p, [], [], [], rfl, List.Sublist.refl _, rfl, by simp [submitted],
      fun _ _ => rfl⟩
  | cons op ops ih =>
    obtain ⟨pa, ea, h1, hwa⟩ := exec_wellFormed op p hw
    obtain ⟨a1, a2, a3, _⟩ := exec_sink op p pa ea h1
    obtain ⟨d1, k1, hs1, hd1, hq1, hk1⟩ := exec_fifo_sub op p pa ea h1
    obtain ⟨pb, eb, d2, k2, h2, hs2, hd2, hq2, hk2⟩ := ih pa hwa
    refine ⟨pb, ea ++ eb, d1 ++ d2, k1 ++ k2, by simp [run, h1, h2], hs1.append hs2, ?_, ?_, ?_⟩
    · rw [delivered_append, hd1, hd2, List.map_append]
    · rw [List.append_assoc, hq2, ← List.append_assoc, hq1, submitted_cons op ops,
        List.append_assoc]
    · intro hs ha
      rw [attachOk_cons] at ha
      have hsa : SinkReady pa := by
        unfold SinkReady at hs ⊢
        rw [a1, a2, a3]
        exact hs
      rw [hk1 hs ha.1, hk2 hsa ha.2]

/-! ## Properties of the specification -/

/-- C2: the `ProcessedImuData` built by the worker copies the timestamp and the three
accelerometer axes of the sample and does not depend on its gyroscope fields; the sample
with timestamp 1000, acc (1.0, 2.0, 3.0), gyro (0, 0, 0) gives (1000, 1.0, 2.0, 3.0). -/
theorem processedData_identity :
    (∀ (F : Type) (d : ImuData F),
      (processedData d).timestamp = d.timestamp ∧ (processedData d).processedX = d.accX ∧
      (processedData d).processedY = d.accY ∧ (processedData d).processedZ = d.accZ) ∧
    (∀ (F : Type) (d : ImuData F) (g1 g2 g3 : F),
      processedData { d with gyroX := g1, gyroY := g2, gyroZ := g3 } = processedData d) ∧
    @processedData Float ⟨1000, 1.0, 2.0, 3.0, 0, 0, 0⟩ = ⟨1000, 1.0, 2.0, 3.0⟩ :=
  ⟨fun _ _ => ⟨rfl, rfl, rfl, rfl⟩, fun _ _ _ _ _ => rfl, rfl⟩

/-- C7: with no processor allocated (the global `imuProcessor` is null), each of
`nativeStartProcessing`, `nativeStopProcessing`, `nativeReceiveImuData` and
`nativeSetOutputCallback` leaves the global null and performs no thread operation and no
JNI call. -/
theorem native_calls_before_init_are_noops (F : Type) :
    Java_com_example_android_1vio_MainActivity_nativeStartProcessing
        (none : Option (ImuProcessor F)) = some (none, []) ∧
    Java_com_example_android_1vio_MainActivity_nativeStopProcessing
        (none : Option (ImuProcessor F)) = (none, []) ∧
    (∀ (timestamp : Int) (accX accY accZ gyroX gyroY gyroZ : F),
      Java_com_example_android_1vio_MainActivity_nativeReceiveImuData
        timestamp accX accY accZ gyroX gyroY gyroZ none = (none, [])) ∧
    (∀ (env : JNIEnv) (callback_obj : Option jobject),
      Java_com_example_android_1vio_MainActivity_nativeSetOutputCallback
        env callback_obj (none : Option (ImuProcessor F)) = (none, [])) :=
  ⟨rfl, rfl, fun _ _ _ _ _ _ _ => rfl, fun _ _ => rfl⟩

/-- C4, as stated, fails: with a stop requested (`running` false) and a sample still in
the queue the woken worker leaves the loop, although the queue is not empty. -/
theorem wake_exit_iff_stop_and_empty_fails :
    waitPredicate stoppingProc = true ∧
    ¬ (wake stoppingProc = Wake.stop ↔
        (stoppingProc.running = false ∧ stoppingProc.inputQueue = [])) := by
  decide

/-- C4, amended: whenever the worker wakes from its wait (the wait predicate holds), it
leaves the loop if and only if a stop was requested (`running` is false), whatever the
queue holds.  Otherwise the queue is non-empty and the worker removes exactly its head,
leaving the rest unchanged and in order, transforms that sample and goes on to the
delivery step, after which the pass continues the loop with nothing pending: with a
resolved sink and `AttachCurrentThread` returning `JNI_OK` the transformed sample is
handed to the registered sink; with no resolved sink no JNI call is made, and when
`AttachCurrentThread` returns `JNI_ERR` the sink is not called. -/
theorem wake_decision {F : Type} (p : ImuProcessor F) (h : waitPredicate p = true) :
    (wake p = Wake.stop ↔ p.running = false) ∧
    (p.running = false → ∀ a t, processImuData a t p = LoopStep.exited) ∧
    (p.running = true →
      ∃ cur rest, p.inputQueue = cur :: rest ∧
        wake p = Wake.dequeued cur { p with inputQueue := rest } ∧
        ∀ a t, ∃ e,
          processImuData a t p = LoopStep.continued { p with inputQueue := rest } e false ∧
          (SinkReady p → a = JNI_OK →
            delivered e = [processedData cur] ∧
            ∀ obj, p.javaCallbackObj = some obj → receivers e = [obj]) ∧
          (¬ SinkReady p → e = []) ∧
          (a = JNI_ERR → delivered e = [])) := by
  obtain ⟨q, th, r, vm, cb, m⟩ := p
  cases r
  · refine ⟨by simp [wake, waitPredicate], fun _ a t => by simp [processImuData], ?_⟩
    intro hr
    exact absurd hr (by simp)
  · cases q with
    | nil => simp [waitPredicate] at h
    | cons cur rest =>
      refine ⟨by simp [wake, waitPredicate], fun hr => absurd hr (by simp), ?_⟩
      intro _
      refine ⟨cur, rest, rfl, by simp [wake, waitPredicate], ?_⟩
      intro a t
      cases vm with
      | none => exact ⟨[], by simp [processImuData, wake, waitPredicate],
          fun hs => absurd hs.1 (by simp), fun _ => rfl, fun _ => rfl⟩
      | some v =>
        cases cb with
        | none => exact ⟨[], by simp [processImuData, wake, waitPredicate],
            fun hs => absurd hs.2.1 (by simp), fun _ => rfl, fun _ => rfl⟩
        | some obj =>
          cases m with
          | none => exact ⟨[], by simp [processImuData, wake, waitPredicate],
              fun hs => absurd hs.2.2 (by simp), fun _ => rfl, fun _ => rfl⟩
          | some mid =>
            obtain ⟨c1, c2, c3⟩ := callback_delivered a t obj mid (processedData cur)
            refine ⟨(callback a t obj mid (processedData cur)).1, ?_, ?_, ?_, ?_⟩
            · simp [processImuData, wake, waitPredicate, c3]
            · intro _ ha
              rw [c1, c2, ha]
              refine ⟨by simp [JNI_OK, JNI_ERR], ?_⟩
              intro o ho
              simp only [Option.some.injEq] at ho
              subst ho
              simp [JNI_OK, JNI_ERR]
            · intro hn
              exact absurd (by simp [SinkReady]) hn
            · intro ha
              rw [c1, ha]
              simp

/-- Witness for the amended C4: the running processor with two queued samples. -/
theorem wake_decision_witness :
    waitPredicate twoQueuedProc = true ∧
    ((wake twoQueuedProc = Wake.stop ↔ twoQueuedProc.running = false) ∧
      (twoQueuedProc.running = false →
        ∀ a t, processImuData a t twoQueuedProc = LoopStep.exited) ∧
      (twoQueuedProc.running = true →
        ∃ cur rest, twoQueuedProc.inputQueue = cur :: rest ∧
          wake twoQueuedProc = Wake.dequeued cur { twoQueuedProc with inputQueue := rest } ∧
          ∀ a t, ∃ e,
            processImuData a t twoQueuedProc =
              LoopStep.continued { twoQueuedProc with inputQueue := rest } e false ∧
            (SinkReady twoQueuedProc → a = JNI_OK →
              delivered e = [processedData cur] ∧
              ∀ obj, twoQueuedProc.javaCallbackObj = some obj → receivers e = [obj]) ∧
            (¬ SinkReady twoQueuedProc → e = []) ∧
            (a = JNI_ERR → delivered e = []))) :=
  ⟨by decide, wake_decision twoQueuedProc (by decide)⟩

/-- When `AttachCurrentThread` returns `JNI_ERR`, the pass removes the head of the queue,
does not call the sink, leaves every other field alone and reaches the end of the body. -/
theorem processImuData_attach_err {F : Type} (p : ImuProcessor F) (d : ImuData F)
    (rest : List (ImuData F)) (t : Bool) (hr : p.running = true)
    (hq : p.inputQueue = d :: rest) (hs : SinkReady p) :
    processImuData JNI_ERR t p =
      LoopStep.continued { p with inputQueue := rest } [Effect.AttachCurrentThread] false := by
  obtain ⟨q, th, r, vm, cb, m⟩ := p
  obtain ⟨h1, h2, h3⟩ := hs
  simp only at hr hq h1 h2 h3
  subst hr hq
  cases vm <;> cases cb <;> cases m <;>
    simp_all [processImuData, wake, waitPredicate, callback]

/-- C6 (the code diverges): a pass in which `AttachCurrentThread` returns `JNI_ENOMEM`, a
status other than `JNI_OK`, still performs `CallVoidMethod` on the registered sink; only
the status `JNI_ERR` makes the pass skip the call. -/
theorem attach_failure_other_than_JNI_ERR_still_calls_sink :
    JNI_ENOMEM ≠ JNI_OK ∧
    processImuData JNI_ENOMEM false oneQueuedProc =
      LoopStep.continued runningProc
        [Effect.AttachCurrentThread, Effect.CallVoidMethod 5 7 1000 1 2 3,
         Effect.ExceptionCheck, Effect.DetachCurrentThread] false ∧
    processImuData JNI_ERR false oneQueuedProc =
      LoopStep.continued runningProc [Effect.AttachCurrentThread] false := by
  decide

/-- A registration whose `NewGlobalRef` fails leaves no sink: every later pass that
dequeues a sample makes no JNI call. -/
theorem setOutputCallback_retain_fails {F : Type} (env : JNIEnv) (obj : jobject)
    (p : ImuProcessor F) (h : env.NewGlobalRef obj = false) :
    (setOutputCallback env (some obj) p).1.javaCallbackObj = none ∧
    ∀ (a : jint) (t : Bool) (d : ImuData F) (rest : List (ImuData F)),
      p.running = true → p.inputQueue = d :: rest →
      processImuData a t (setOutputCallback env (some obj) p).1 =
        LoopStep.continued { (setOutputCallback env (some obj) p).1 with inputQueue := rest }
          [] false := by
  obtain ⟨q, th, r, vm, cb, m⟩ := p
  refine ⟨by simp [setOutputCallback, JNIEnv.newGlobalRef, h], ?_⟩
  intro a t d rest hr hq
  simp only at hr hq
  subst hr hq
  simp [setOutputCallback, JNIEnv.newGlobalRef, h, processImuData, wake, waitPredicate]

/-- A registration whose `GetMethodID` fails clears the cached method id: every later
pass that dequeues a sample makes no JNI call. -/
theorem setOutputCallback_lookup_fails {F : Type} (env : JNIEnv) (obj : jobject)
    (cls : jclass) (p : ImuProcessor F) (h1 : env.NewGlobalRef obj = true)
    (h2 : env.GetObjectClass obj = some cls)
    (h3 : env.GetMethodID cls "onProcessedImuData" "(JFFF)V" = none) :
    (setOutputCallback env (some obj) p).1.onProcessedImuDataMethodId = none ∧
    ∀ (a : jint) (t : Bool) (d : ImuData F) (rest : List (ImuData F)),
      p.running = true → p.inputQueue = d :: rest →
      processImuData a t (setOutputCallback env (some obj) p).1 =
        LoopStep.continued { (setOutputCallback env (some obj) p).1 with inputQueue := rest }
          [] false := by
  obtain ⟨q, th, r, vm, cb, m⟩ := p
  refine ⟨by simp [setOutputCallback, JNIEnv.newGlobalRef, findJavaCallbackMethod, h1, h2, h3],
    ?_⟩
  intro a t d rest hr hq
  simp only at hr hq
  subst hr hq
  simp [setOutputCallback, JNIEnv.newGlobalRef, findJavaCallbackMethod, h1, h2, h3,
    processImuData, wake, waitPredicate]

/-- C10 (the code diverges): on a processor whose earlier registration of sink 5 resolved
method id 7, a registration of sink 6 in which `GetObjectClass` returns null keeps the
stale method id 7 next to the new sink, and the next pass calls the sink instead of
skipping the delivery. -/
theorem failed_class_lookup_keeps_stale_method_id :
    (setOutputCallback envClassFails (some 6) oneQueuedProc).1 =
      { oneQueuedProc with javaCallbackObj := some 6 } ∧
    (setOutputCallback envClassFails (some 6) oneQueuedProc).2 =
      [Effect.GetJavaVM, Effect.DeleteGlobalRef 5, Effect.NewGlobalRef (some 6),
       Effect.GetObjectClass 6] ∧
    processImuData JNI_OK false (setOutputCallback envClassFails (some 6) oneQueuedProc).1 =
      LoopStep.continued { runningProc with javaCallbackObj := some 6 }
        [Effect.AttachCurrentThread, Effect.CallVoidMethod 6 7 1000 1 2 3,
         Effect.ExceptionCheck, Effect.DetachCurrentThread] false := by
  decide

/-- C8: on every processor state satisfying the class invariant, `startProcessing`
succeeds, leaves `running` set with the one worker thread, spawns a thread only if the
processor was stopped, and a second `startProcessing` changes nothing and spawns nothing;
`stopProcessing` leaves `running` cleared with the worker joined, and a second
`stopProcessing` changes nothing; `startProcessing` on a running processor and
`stopProcessing` on a stopped one change nothing. -/
theorem start_stop_idempotent {F : Type} (p : ImuProcessor F) (h : WellFormed p) :
    (∃ p1 e1, startProcessing p = some (p1, e1) ∧
      p1.running = true ∧ p1.processingThread = true ∧
      e1 = (if p.running then [] else [Effect.spawnThread]) ∧
      startProcessing p1 = some (p1, [])) ∧
    ((stopProcessing p).1.running = false ∧ (stopProcessing p).1.processingThread = false ∧
      stopProcessing (stopProcessing p).1 = ((stopProcessing p).1, [])) ∧
    (p.running = true → startProcessing p = some (p, [])) ∧
    (p.running = false → stopProcessing p = (p, [])) := by
  obtain ⟨q, th, r, vm, cb, m⟩ := p
  simp only [WellFormed] at h
  subst h
  cases th
  · exact ⟨⟨_, _, rfl, rfl, rfl, rfl, rfl⟩, ⟨rfl, rfl, rfl⟩, by simp, fun _ => rfl⟩
  · exact ⟨⟨_, _, rfl, rfl, rfl, rfl, rfl⟩, ⟨rfl, rfl, rfl⟩, fun _ => rfl, by simp⟩

/-- Witness for C8: a stopped processor with a registered sink. -/
theorem start_stop_idempotent_witness :
    WellFormed stoppedProc ∧
    ((∃ p1 e1, startProcessing stoppedProc = some (p1, e1) ∧
      p1.running = true ∧ p1.processingThread = true ∧
      e1 = (if stoppedProc.running then [] else [Effect.spawnThread]) ∧
      startProcessing p1 = some (p1, [])) ∧
    ((stopProcessing stoppedProc).1.running = false ∧
      (stopProcessing stoppedProc).1.processingThread = false ∧
      stopProcessing (stopProcessing stoppedProc).1 = ((stopProcessing stoppedProc).1, [])) ∧
    (stoppedProc.running = true → startProcessing stoppedProc = some (stoppedProc, [])) ∧
    (stoppedProc.running = false → stopProcessing stoppedProc = (stoppedProc, []))) :=
  ⟨rfl, start_stop_idempotent stoppedProc rfl⟩

/-- Calls of `receiveImuData` and worker passes leave `running` and the worker thread
as they are. -/
theorem run_producerConsumer {F : Type} (ops : List (Op F)) (p p1 : ImuProcessor F)
    (e : List (Effect F)) (hpc : ProducerConsumer ops) (h : run ops p = some (p1, e)) :
    p1.running = p.running ∧ p1.processingThread = p.processingThread := by
  induction ops generalizing p e with
  | nil =>
    simp only [run, Option.some.injEq, Prod.mk.injEq] at h
    obtain ⟨rfl, rfl⟩ := h
    exact ⟨rfl, rfl⟩
  | cons op ops ih =>
    rw [run] at h
    cases h1 : exec op p with
    | none => simp [h1] at h
    | some r1 =>
      obtain ⟨pa, ea⟩ := r1
      rw [h1] at h
      dsimp only at h
      cases h2 : run ops pa with
      | none => simp [h2] at h
      | some r2 =>
        obtain ⟨pb, eb⟩ := r2
        rw [h2] at h
        simp only [Option.some.injEq, Prod.mk.injEq] at h
        obtain ⟨rfl, rfl⟩ := h
        have hstep : pa.running = p.running ∧ pa.processingThread = p.processingThread := by
          cases op with
          | receiveImuData d =>
            simp only [exec, receiveImuData, Option.some.injEq, Prod.mk.injEq] at h1
            obtain ⟨rfl, _⟩ := h1
            exact ⟨rfl, rfl⟩
          | startProcessing => exact absurd hpc (by simp [ProducerConsumer])
          | stopProcessing => exact absurd hpc (by simp [ProducerConsumer])
          | worker a t =>
            rcases exec_worker_cases a t p with ⟨h3, _⟩ | ⟨d, rest, _, _, _, h3⟩
            · rw [h3] at h1
              simp only [Option.some.injEq, Prod.mk.injEq] at h1
              obtain ⟨rfl, _⟩ := h1
              exact ⟨rfl, rfl⟩
            · rcases h3 with ⟨vm, obj, m, _, _, _, h3⟩ | ⟨_, h3⟩ <;>
              · rw [h3] at h1
                simp only [Option.some.injEq, Prod.mk.injEq] at h1
                obtain ⟨rfl, _⟩ := h1
                exact ⟨rfl, rfl⟩
        have htail : ProducerConsumer ops := by
          cases op <;> simp_all [ProducerConsumer]
        obtain ⟨b1, b2⟩ := ih pa eb htail h2
        exact ⟨b1.trans hstep.1, b2.trans hstep.2⟩

/-- C1: from an empty queue, with the worker running and a resolved sink, every
interleaving of `receiveImuData` calls and worker passes that attach successfully returns,
and the samples handed to the sink are, in order, the transform of a list `done` that is an
initial part of the submitted samples, where `done` followed by the queue is exactly the
list of submitted samples; the worker is still running afterwards. -/
theorem fifo_preservation {F : Type} (ops : List (Op F)) (p : ImuProcessor F)
    (hq : p.inputQueue = []) (hr : p.running = true) (ht : p.processingThread = true)
    (hs : SinkReady p) (hpc : ProducerConsumer ops) (ha : AttachOk ops) :
    ∃ p1 e done, run ops p = some (p1, e) ∧
      delivered e = done.map processedData ∧
      done <+: submitted ops ∧
      done ++ p1.inputQueue = submitted ops ∧
      p1.running = true ∧ p1.processingThread = true := by
  have hw : WellFormed p := by
    unfold WellFormed
    rw [hr, ht]
  obtain ⟨p1, e, done, h1, h2, h3⟩ := run_fifo ops p hw hs ha
  rw [hq, List.nil_append] at h3
  obtain ⟨h4, h5⟩ := run_producerConsumer ops p p1 e hpc h1
  exact ⟨p1, e, done, h1, h2, ⟨p1.inputQueue, h3⟩, h3, h4.trans hr, h5.trans ht⟩

/-- Witness for C1: three submissions interleaved with two worker passes. -/
theorem fifo_preservation_witness :
    ∃ p1 e done,
      run [Op.receiveImuData sampleA, Op.receiveImuData sampleB, Op.worker JNI_OK false,
           Op.receiveImuData sampleA, Op.worker JNI_OK true] runningProc = some (p1, e) ∧
      delivered e = done.map processedData ∧
      done <+: submitted [Op.receiveImuData sampleA, Op.receiveImuData sampleB,
        Op.worker JNI_OK false, Op.receiveImuData sampleA, Op.worker JNI_OK true] ∧
      done ++ p1.inputQueue = submitted [Op.receiveImuData sampleA, Op.receiveImuData sampleB,
        Op.worker JNI_OK false, Op.receiveImuData sampleA, Op.worker JNI_OK true] ∧
      p1.running = true ∧ p1.processingThread = true :=
  fifo_preservation _ runningProc rfl rfl rfl ⟨rfl, rfl, rfl⟩
    (by simp [ProducerConsumer]) (by simp [AttachOk])

/-- C3, as stated, fails: a sample submitted while running and still queued when
`stopProcessing` is called is handed to the sink by the first worker pass after the next
`startProcessing`, although nothing was submitted after the restart. -/
theorem queued_sample_delivered_after_restart :
    run [Op.startProcessing, Op.receiveImuData sampleA, Op.stopProcessing] stoppedProc =
      some ({ stoppedProc with inputQueue := [sampleA] },
        [Effect.spawnThread, Effect.notifyAll, Effect.joinThread]) ∧
    run [Op.startProcessing, Op.receiveImuData sampleA, Op.stopProcessing,
         Op.startProcessing, Op.worker JNI_OK false] stoppedProc =
      some (runningProc,
        [Effect.spawnThread, Effect.notifyAll, Effect.joinThread, Effect.spawnThread,
         Effect.AttachCurrentThread, Effect.CallVoidMethod 5 7 1000 1 2 3,
         Effect.ExceptionCheck, Effect.DetachCurrentThread]) ∧
    submitted [Op.startProcessing, Op.worker JNI_OK false] = ([] : List (ImuData Nat)) := by
  decide

/-- C3, amended: `stopProcessing` keeps the queue.  From a state satisfying the class
invariant, after any trace `ops1`, a `stopProcessing` followed by steps `ops2` without
`startProcessing` hands nothing to the sink and leaves the samples that were queued when
the stop began in the queue, followed by those submitted meanwhile.  After a later
`startProcessing` the worker dequeues a list `done` that is an initial part of: the
retained samples, then the samples submitted while stopped, then those submitted after
the restart; what it hands to the sink is, in the same order, a sublist `kept` of `done`,
and all of `done` when a sink is resolved and every pass attaches with `JNI_OK`.  With a
resolved sink the first pass after the restart, attaching with `JNI_OK`, hands over the
head of the retained queue. -/
theorem stop_retains_queued_samples {F : Type} (ops1 ops2 ops3 : List (Op F))
    (p : ImuProcessor F) (hw : WellFormed p) (hn : NoStart ops2) :
    ∃ p0 e0 p2 e2 p3 e3 done kept,
      run ops1 p = some (p0, e0) ∧
      run (ops1 ++ Op.stopProcessing :: ops2) p = some (p2, e0 ++ e2) ∧
      delivered e2 = [] ∧ p2.running = false ∧
      p2.inputQueue = p0.inputQueue ++ submitted ops2 ∧
      run (ops1 ++ Op.stopProcessing :: ops2 ++ Op.startProcessing :: ops3) p =
        some (p3, e0 ++ e2 ++ e3) ∧
      List.Sublist kept done ∧
      delivered e3 = kept.map processedData ∧
      done ++ p3.inputQueue = p0.inputQueue ++ submitted ops2 ++ submitted ops3 ∧
      (SinkReady p → AttachOk ops3 → kept = done) ∧
      (SinkReady p → ∀ d rest t, p2.inputQueue = d :: rest →
        ∃ e, run [Op.startProcessing, Op.worker JNI_OK t] p2 =
            some ({ p2 with inputQueue := rest, running := true, processingThread := true }, e) ∧
          delivered e = [processedData d]) := by
  obtain ⟨p0, e0, h0, hw0⟩ := run_wellFormed ops1 p hw
  obtain ⟨s1, s2, s3, _⟩ := run_sink ops1 p p0 e0 h0
  have hstop : ∃ es, exec Op.stopProcessing p0 =
      some ({ p0 with running := false, processingThread := false }, es) ∧
      delivered es = [] := by
    obtain ⟨q, th, r, vm, cb, m⟩ := p0
    simp only [WellFormed] at hw0
    subst hw0
    cases th
    · exact ⟨[], rfl, rfl⟩
    · exact ⟨[Effect.notifyAll, Effect.joinThread], rfl, rfl⟩
  obtain ⟨es, hes, hdes⟩ := hstop
  obtain ⟨p2, e2, h2, hr2, ht2, hd2, hq2⟩ :=
    run_stopped ops2 { p0 with running := false, processingThread := false } rfl rfl hn
  have hstop2 : run (Op.stopProcessing :: ops2) p0 = some (p2, es ++ e2) := by
    simp [run, hes, h2]
  obtain ⟨t1, t2, t3, _⟩ := run_sink _ _ _ _ hstop2
  have hs2 : SinkReady p → SinkReady p2 := by
    intro hs
    unfold SinkReady at hs ⊢
    rw [t1, t2, t3, s1, s2, s3]
    exact hs
  have hw2 : WellFormed p2 := by
    unfold WellFormed
    rw [hr2, ht2]
  obtain ⟨p3, e3, done, kept, h3, hsub3, hd3, hq3, hk3⟩ :=
    run_fifo_sub (Op.startProcessing :: ops3) p2 hw2
  have hsub : submitted (Op.startProcessing :: ops3) = submitted ops3 := rfl
  refine ⟨p0, e0, p2, es ++ e2, p3, e3, done, kept, h0, ?_, ?_, hr2, hq2, ?_, hsub3, hd3,
    ?_, ?_, ?_⟩
  · rw [run_append, h0]
    simp [hstop2]
  · rw [delivered_append, hdes, hd2]
    rfl
  · have : ops1 ++ Op.stopProcessing :: ops2 ++ Op.startProcessing :: ops3 =
        ops1 ++ ((Op.stopProcessing :: ops2) ++ (Op.startProcessing :: ops3)) := by simp
    rw [this, run_append, h0]
    dsimp only
    rw [run_append, hstop2]
    dsimp only
    rw [h3]
    simp [List.append_assoc]
  · rw [hq3, hsub, hq2]
  · intro hs ha
    exact hk3 (hs2 hs) ha
  · intro hs d rest t hq
    obtain ⟨q, th, r, vm, cb, m⟩ := p2
    obtain ⟨c1, c2, c3⟩ := hs2 hs
    simp only at hr2 ht2 hq c1 c2 c3
    subst hr2 ht2 hq
    cases vm <;> cases cb <;> cases m <;> simp at c1 c2 c3
    cases t <;>
      simp [run, exec, startProcessing, processImuData, wake, waitPredicate, callback,
        JNI_OK, JNI_ERR, delivered]

/-- Witness for the amended C3: start, submit one sample, stop, restart, one worker
pass. -/
theorem stop_retains_queued_samples_witness :
    ∃ p0 e0 p2 e2 p3 e3 done kept,
      run [Op.startProcessing, Op.receiveImuData sampleA] stoppedProc = some (p0, e0) ∧
      run ([Op.startProcessing, Op.receiveImuData sampleA] ++ Op.stopProcessing :: [])
        stoppedProc = some (p2, e0 ++ e2) ∧
      delivered e2 = [] ∧ p2.running = false ∧
      p2.inputQueue = p0.inputQueue ++ submitted ([] : List (Op Nat)) ∧
      run ([Op.startProcessing, Op.receiveImuData sampleA] ++ Op.stopProcessing :: [] ++
          Op.startProcessing :: [Op.worker JNI_OK false]) stoppedProc =
        some (p3, e0 ++ e2 ++ e3) ∧
      List.Sublist kept done ∧
      delivered e3 = kept.map processedData ∧
      done ++ p3.inputQueue =
        p0.inputQueue ++ submitted ([] : List (Op Nat)) ++ submitted [Op.worker JNI_OK false] ∧
      (SinkReady stoppedProc → AttachOk ([Op.worker JNI_OK false] : List (Op Nat)) →
        kept = done) ∧
      (SinkReady stoppedProc → ∀ d rest t, p2.inputQueue = d :: rest →
        ∃ e, run [Op.startProcessing, Op.worker JNI_OK t] p2 =
            some ({ p2 with inputQueue := rest, running := true, processingThread := true }, e) ∧
          delivered e = [processedData d]) :=
  stop_retains_queued_samples [Op.startProcessing, Op.receiveImuData sampleA] []
    [Op.worker JNI_OK false] stoppedProc rfl (by simp [NoStart])

/-- C5: on every running processor with a resolved sink and a queued sample, the pass in
which the sink leaves an exception pending ends in the same processor state as the pass
in which it returns normally (head removed, every other field unchanged), with the
exception cleared (`ExceptionClear` was called, nothing is pending); the pass reaches the
end of the loop body instead of leaving the loop, and the next pass dequeues the next
sample and hands it to the sink. -/
theorem sink_exception_suppressed {F : Type} (p : ImuProcessor F) (d : ImuData F)
    (rest : List (ImuData F)) (hr : p.running = true) (hq : p.inputQueue = d :: rest)
    (hs : SinkReady p) :
    ∃ eT eN,
      processImuData JNI_OK true p =
        LoopStep.continued { p with inputQueue := rest } eT false ∧
      processImuData JNI_OK false p =
        LoopStep.continued { p with inputQueue := rest } eN false ∧
      Effect.ExceptionClear ∈ eT ∧ delivered eT = [processedData d] ∧
      (∀ d2 rest2 t, rest = d2 :: rest2 →
        ∃ e2, processImuData JNI_OK t { p with inputQueue := rest } =
            LoopStep.continued { p with inputQueue := rest2 } e2 false ∧
          delivered e2 = [processedData d2]) := by
  obtain ⟨q, th, r, vm, cb, m⟩ := p
  obtain ⟨c1, c2, c3⟩ := hs
  simp only at hr hq c1 c2 c3
  subst hr hq
  cases vm <;> cases cb <;> cases m <;> simp at c1 c2 c3
  refine ⟨_, _, rfl, rfl, ?_, ?_, ?_⟩
  · simp [callback, JNI_OK, JNI_ERR]
  · simp [callback, JNI_OK, JNI_ERR, delivered]
  · intro d2 rest2 t hrest
    subst hrest
    cases t <;>
      simp [processImuData, wake, waitPredicate, callback, JNI_OK, JNI_ERR, delivered]

/-- Witness for C5: the running processor with two queued samples. -/
theorem sink_exception_suppressed_witness :
    ∃ eT eN,
      processImuData JNI_OK true twoQueuedProc =
        LoopStep.continued { twoQueuedProc with inputQueue := [sampleB] } eT false ∧
      processImuData JNI_OK false twoQueuedProc =
        LoopStep.continued { twoQueuedProc with inputQueue := [sampleB] } eN false ∧
      Effect.ExceptionClear ∈ eT ∧ delivered eT = [processedData sampleA] ∧
      (∀ d2 rest2 t, [sampleB] = d2 :: rest2 →
        ∃ e2, processImuData JNI_OK t { twoQueuedProc with inputQueue := [sampleB] } =
            LoopStep.continued { twoQueuedProc with inputQueue := rest2 } e2 false ∧
          delivered e2 = [processedData d2]) :=
  sink_exception_suppressed twoQueuedProc sampleA [sampleB] rfl rfl ⟨rfl, rfl, rfl⟩

/-- C9: on a processor holding sink `A`, `setOutputCallback` with sink `B` leaves the
registration `B` (or none, when `NewGlobalRef` fails), releases the global reference to
`A`, and leaves the queue, `running` and the worker thread unchanged; in every later
trace every sink call goes to `B`, so none goes to a different object `A`; and when the
registration resolves, a worker pass that attaches hands the head of the queue to `B`. -/
theorem setOutputCallback_replaces_sink {F : Type} (env : JNIEnv) (p : ImuProcessor F)
    (A B : jobject) (hA : p.javaCallbackObj = some A) :
    (setOutputCallback env (some B) p).1.javaCallbackObj =
      (if env.NewGlobalRef B then some B else none) ∧
    Effect.DeleteGlobalRef A ∈ (setOutputCallback env (some B) p).2 ∧
    (setOutputCallback env (some B) p).1.inputQueue = p.inputQueue ∧
    (setOutputCallback env (some B) p).1.running = p.running ∧
    (setOutputCallback env (some B) p).1.processingThread = p.processingThread ∧
    (∀ ops p1 e, run ops (setOutputCallback env (some B) p).1 = some (p1, e) →
      (∀ o ∈ receivers e, o = B) ∧ (A ≠ B → A ∉ receivers e)) ∧
    (∀ vm cls mid d rest t, env.NewGlobalRef B = true → env.GetJavaVM p.javaVm = some vm →
      env.GetObjectClass B = some cls →
      env.GetMethodID cls "onProcessedImuData" "(JFFF)V" = some mid →
      p.running = true → p.inputQueue = d :: rest →
      ∃ e, processImuData JNI_OK t (setOutputCallback env (some B) p).1 =
          LoopStep.continued { (setOutputCallback env (some B) p).1 with inputQueue := rest }
            e false ∧
        receivers e = [B] ∧ delivered e = [processedData d]) := by
  have hcb : (setOutputCallback env (some B) p).1.javaCallbackObj =
      (if env.NewGlobalRef B then some B else none) := by
    obtain ⟨q, th, r, vm, cb, m⟩ := p
    cases hB : env.NewGlobalRef B <;> cases hC : env.GetObjectClass B <;>
      simp [setOutputCallback, JNIEnv.newGlobalRef, findJavaCallbackMethod, hB, hC]
  refine ⟨hcb, ?_, ?_, ?_, ?_, ?_, ?_⟩
  · obtain ⟨q, th, r, vm, cb, m⟩ := p
    simp only at hA
    subst hA
    cases hB : env.NewGlobalRef B <;> cases hC : env.GetObjectClass B <;>
      simp [setOutputCallback, JNIEnv.newGlobalRef, findJavaCallbackMethod, hB, hC]
  · obtain ⟨q, th, r, vm, cb, m⟩ := p
    cases hB : env.NewGlobalRef B <;> cases hC : env.GetObjectClass B <;>
      simp [setOutputCallback, JNIEnv.newGlobalRef, findJavaCallbackMethod, hB, hC]
  · obtain ⟨q, th, r, vm, cb, m⟩ := p
    cases hB : env.NewGlobalRef B <;> cases hC : env.GetObjectClass B <;>
      simp [setOutputCallback, JNIEnv.newGlobalRef, findJavaCallbackMethod, hB, hC]
  · obtain ⟨q, th, r, vm, cb, m⟩ := p
    cases hB : env.NewGlobalRef B <;> cases hC : env.GetObjectClass B <;>
      simp [setOutputCallback, JNIEnv.newGlobalRef, findJavaCallbackMethod, hB, hC]
  · intro ops p1 e hrun
    obtain ⟨_, _, _, hrec⟩ := run_sink ops _ p1 e hrun
    have hall : ∀ o ∈ receivers e, o = B := by
      intro o ho
      have h1 := hrec o ho
      rw [hcb] at h1
      split at h1
      · exact (Option.some.inj h1).symm
      · exact absurd h1 (by simp)
    exact ⟨hall, fun hne hmem => hne (hall A hmem)⟩
  · intro vm0 cls mid d rest t hB hV hC hM hr hq
    obtain ⟨q, th, r, vm, cb, m⟩ := p
    simp only at hr hq hV
    subst hr hq
    cases t <;>
      simp [setOutputCallback, JNIEnv.newGlobalRef, findJavaCallbackMethod, hB, hC, hM, hV,
        processImuData, wake, waitPredicate, callback, JNI_OK, JNI_ERR, receivers, delivered]

/-- Witness for C9: sink 5 is replaced by sink 6. -/
theorem setOutputCallback_replaces_sink_witness :
    (setOutputCallback envOk (some 6) oneQueuedProc).1.javaCallbackObj =
      (if envOk.NewGlobalRef 6 then some 6 else none) ∧
    Effect.DeleteGlobalRef 5 ∈ (setOutputCallback envOk (some 6) oneQueuedProc).2 ∧
    (setOutputCallback envOk (some 6) oneQueuedProc).1.inputQueue = oneQueuedProc.inputQueue ∧
    (setOutputCallback envOk (some 6) oneQueuedProc).1.running = oneQueuedProc.running ∧
    (setOutputCallback envOk (some 6) oneQueuedProc).1.processingThread =
      oneQueuedProc.processingThread ∧
    (∀ ops p1 e, run ops (setOutputCallback envOk (some 6) oneQueuedProc).1 = some (p1, e) →
      (∀ o ∈ receivers e, o = 6) ∧ (5 ≠ 6 → 5 ∉ receivers e)) ∧
    (∀ vm cls mid d rest t, envOk.NewGlobalRef 6 = true →
      envOk.GetJavaVM oneQueuedProc.javaVm = some vm →
      envOk.GetObjectClass 6 = some cls →
      envOk.GetMethodID cls "onProcessedImuData" "(JFFF)V" = some mid →
      oneQueuedProc.running = true → oneQueuedProc.inputQueue = d :: rest →
      ∃ e, processImuData JNI_OK t (setOutputCallback envOk (some 6) oneQueuedProc).1 =
          LoopStep.continued
            { (setOutputCallback envOk (some 6) oneQueuedProc).1 with inputQueue := rest }
            e false ∧
        receivers e = [6] ∧ delivered e = [processedData d]) :=
  setOutputCallback_replaces_sink envOk oneQueuedProc 5 6 rfl

end AndroidVIO
